import Mathlib

/-!
Verification of the blacksmith network-boot orchestrator core against its
specification.  The development shallowly embeds two subsystems:

* the DHCP lease pool (`package dhcp` in the source): lease records,
  the etcd-backed store, and the `Assign` / `Request` / `Leases` operations;
* the TFTP read-only server (`package tftp`): RRQ parsing, the stop-and-wait
  send discipline, and the block-cutting transfer loop.

Machine integers are modelled as `Nat` (IPv4 addresses as their 32-bit
numeric value, wall-clock instants as seconds).  Go maps are determinized
as association lists iterated in list order; Go's map iteration order is
unspecified, so the list order is one of the code's possible behaviors.
Fallible store writes are modelled by a `storeOk : Bool` oracle: `false`
means the underlying etcd `Set` call fails.
-/

namespace Blacksmith

/-! ## DHCP lease pool (src/unnamed/part_000, package dhcp) -/

/-- The distinguishable errors surfaced by the pool
(`ErrLeasePoolIsFull`, `ErrRefreshNoMatch`, `ErrFoundInvalidLease`),
plus `storeErr` standing for any etcd I/O failure. -/
inductive PoolErr where
  | leasePoolIsFull
  | refreshNoMatch
  | foundInvalidLease
  | storeErr
deriving DecidableEq, Repr

/-- `type Lease struct` — one binding of an IPv4 address to a hardware
address.  `ip` is the 32-bit numeric value of the address; times are
seconds. -/
structure Lease where
  nic : String
  ip : Nat
  firstAssigned : Nat
  lastAssigned : Nat
  expireTime : Nat
deriving DecidableEq, Repr

/-- `func newLease` — builds a lease at instant `now` (`time.Now()` in the
source is passed explicitly).  `firstAssigned = nil` means the binding is
fresh and `FirstAssigned` is set to `now`. -/
def newLease (nic : String) (ip : Nat) (expireDuration : Nat)
    (firstAssigned : Option Nat) (now : Nat) : Lease :=
  { nic := nic
    ip := ip
    firstAssigned := firstAssigned.getD now
    lastAssigned := now
    expireTime := now + expireDuration }

/-- `type LeasePool struct` — the immutable configuration (the etcd handle
and directory are abstracted away; the stored subtree is the explicit
`PoolState`). -/
structure LeasePool where
  startIP : Nat
  rangeLen : Nat
  expireDuration : Nat
deriving DecidableEq, Repr

/-- The contents of the `<dir>/leases` subtree, as the association map the
code rebuilds with `Leases()`: one entry per IP key, keyed by the lease's
`IP` field, iterated in list order. -/
abbrev PoolState := List Lease

/-- `dhcp4.IPAdd(startIP, i)` — 32-bit address arithmetic. -/
def ipAdd (s i : Nat) : Nat := (s + i) % 2 ^ 32

/-- Map lookup `leases[ip.String()]` (keys are the leases' IP fields). -/
def lookupLease (st : PoolState) (ip : Nat) : Option Lease :=
  st.find? (fun l => l.ip == ip)

/-- The etcd `Set` of `Store`: overwrite the record at the lease's IP key,
or create it. -/
def storeSet : PoolState → Lease → PoolState
  | [], l => [l]
  | x :: xs, l => if x.ip == l.ip then l :: xs else x :: storeSet xs l

/-- The `// try to find by mac address` loop of `Assign` (and the renewal
test of `Request`): first stored lease whose `Nic` equals `nic`. -/
def findByNic (st : PoolState) (nic : String) : Option Lease :=
  st.find? (fun l => l.nic == nic)

/-- The `// find an expired ip` loop of `Assign`: first stored lease with
`lease.ExpireTime.Before(now)`. -/
def findExpired (st : PoolState) (now : Nat) : Option Lease :=
  st.find? (fun l => l.expireTime < now)

/-- The `// find an unseen ip` loop of `Assign`:
`for i := 0; i < p.rangeLen; i++` looking for the first `startIP + i`
with no stored lease.  The loop runs at most `rangeLen` iterations,
counted down by the first argument while `i` counts up from 0. -/
def findUnusedGo (p : LeasePool) (st : PoolState) : Nat → Nat → Option Nat
  | 0, _ => none
  | fuel + 1, i =>
    let ip := ipAdd p.startIP i
    if (lookupLease st ip).isNone then some ip else findUnusedGo p st fuel (i + 1)

/-- The whole `// find an unseen ip` loop, started at `i = 0`. -/
def findUnused (p : LeasePool) (st : PoolState) : Option Nat :=
  findUnusedGo p st p.rangeLen 0

/-- `func (p *LeasePool) Assign(nic string)` — the three-step allocation
with final `ErrLeasePoolIsFull`.  `storeOk` tells whether the etcd write
performed by `Store` succeeds; the source checks `Store`'s error only in
the unused-slot step and discards it in the sticky and expired steps. -/
def Assign (p : LeasePool) (storeOk : Bool) (st : PoolState) (nic : String)
    (now : Nat) : Except PoolErr (Nat × PoolState) :=
  match findByNic st nic with
  | some lease =>
    -- p.Store(...) with its error ignored
    .ok (lease.ip,
      if storeOk then
        storeSet st (newLease nic lease.ip p.expireDuration (some lease.firstAssigned) now)
      else st)
  | none =>
    match findUnused p st with
    | some ip =>
      -- err := p.Store(...); if err != nil { return nil, err }
      if storeOk then
        .ok (ip, storeSet st (newLease nic ip p.expireDuration none now))
      else .error .storeErr
    | none =>
      match findExpired st now with
      | some lease =>
        -- p.Store(...) with its error ignored
        .ok (lease.ip,
          if storeOk then
            storeSet st (newLease nic lease.ip p.expireDuration none now)
          else st)
      | none => .error .leasePoolIsFull

/-- `func (p *LeasePool) Request(nic string, currentIP net.IP)` — the
if/else-if chain with trailing `return nil, ErrRefreshNoMatch`.  Both
store writes discard `Store`'s error in the source. -/
def Request (p : LeasePool) (storeOk : Bool) (st : PoolState) (nic : String)
    (currentIP : Nat) (now : Nat) : Except PoolErr (Nat × PoolState) :=
  match lookupLease st currentIP with
  | some lease =>
    if lease.nic == nic then
      .ok (lease.ip,
        if storeOk then
          storeSet st (newLease nic lease.ip p.expireDuration (some lease.firstAssigned) now)
        else st)
    else if now < lease.expireTime then
      .error .refreshNoMatch
    else
      -- expired lease of a different nic: falls through to the final return
      .error .refreshNoMatch
  | none =>
    if st.any (fun l => l.nic == nic && now < l.expireTime) then
      .error .refreshNoMatch
    else
      .ok (currentIP,
        if storeOk then storeSet st (newLease nic currentIP p.expireDuration none now)
        else st)

/-! ### Spec-side restatements of the allocation policies

These two definitions are written from the specification's words (the
four-step Assign policy and the four-case Request policy), not from the
source, so that proving them equal to `Assign` / `Request` checks the
spec against the code. -/

/-- Spec-side Assign policy, from the spec's words: (1) sticky — renew the
lease whose hardware identifier equals `nic`, preserving `first_assigned`;
(2) unused slot — the first address `S + i`, `i = 0 … R-1`, with no stored
lease gets a fresh lease; (3) expired reclamation — rebind an expired IP
with `first_assigned = now`; (4) otherwise `LeasePoolIsFull`. -/
def assignPolicy (p : LeasePool) (st : PoolState) (nic : String) (now : Nat) :
    Except PoolErr (Nat × PoolState) :=
  match findByNic st nic with
  | some l =>
    .ok (l.ip, storeSet st
      { nic := nic, ip := l.ip, firstAssigned := l.firstAssigned,
        lastAssigned := now, expireTime := now + p.expireDuration })
  | none =>
    match (List.range p.rangeLen).find?
        (fun i => (lookupLease st (ipAdd p.startIP i)).isNone) with
    | some i =>
      .ok (ipAdd p.startIP i, storeSet st
        { nic := nic, ip := ipAdd p.startIP i, firstAssigned := now,
          lastAssigned := now, expireTime := now + p.expireDuration })
    | none =>
      match findExpired st now with
      | some l =>
        .ok (l.ip, storeSet st
          { nic := nic, ip := l.ip, firstAssigned := now,
            lastAssigned := now, expireTime := now + p.expireDuration })
      | none => .error .leasePoolIsFull

/-- Spec-side Request policy, from the spec's words: with `L = leases[ip]`,
renew (preserving `first_assigned`) when `L.nic = nic` regardless of
expiry; reject an unexpired foreign binding; for an absent record, reject
when `nic` already holds an unexpired lease elsewhere, otherwise create a
fresh binding; reject an expired foreign binding. -/
def requestPolicy (p : LeasePool) (st : PoolState) (nic : String)
    (currentIP : Nat) (now : Nat) : Except PoolErr (Nat × PoolState) :=
  match lookupLease st currentIP with
  | some l =>
    if l.nic == nic then
      .ok (currentIP, storeSet st
        { nic := nic, ip := currentIP, firstAssigned := l.firstAssigned,
          lastAssigned := now, expireTime := now + p.expireDuration })
    else if now < l.expireTime then
      .error .refreshNoMatch
    else
      .error .refreshNoMatch
  | none =>
    if st.any (fun l => l.nic == nic && now < l.expireTime) then
      .error .refreshNoMatch
    else
      .ok (currentIP, storeSet st
        { nic := nic, ip := currentIP, firstAssigned := now,
          lastAssigned := now, expireTime := now + p.expireDuration })

/-- The Go counting loop searches exactly the indices `i, i+1, …` given by
`fuel` remaining iterations, i.e. the interval `List.range' i fuel`. -/
theorem findUnusedGo_eq_range' (p : LeasePool) (st : PoolState) :
    ∀ (n i : Nat), findUnusedGo p st n i =
      ((List.range' i n).find?
          (fun j => (lookupLease st (ipAdd p.startIP j)).isNone)).map
        (fun j => ipAdd p.startIP j) := by
  intro n
  induction n with
  | zero => intro i; simp [findUnusedGo]
  | succ m ih =>
    intro i
    rw [List.range'_succ]
    by_cases h : (lookupLease st (ipAdd p.startIP i)).isNone
    · simp [findUnusedGo, h]
    · simp [findUnusedGo, h, ih (i + 1)]

/-- The unused-slot loop is the first free index among `0 … rangeLen - 1`. -/
theorem findUnused_eq_range (p : LeasePool) (st : PoolState) :
    findUnused p st =
      ((List.range p.rangeLen).find?
          (fun j => (lookupLease st (ipAdd p.startIP j)).isNone)).map
        (fun j => ipAdd p.startIP j) := by
  rw [findUnused, findUnusedGo_eq_range', List.range_eq_range']

/-- Claim C1: for every nic and pool state, `Assign` evaluates exactly the
four-step policy in order — sticky renewal preserving `first_assigned`,
first unused address `S + i` in increasing order of `i`, expired
reclamation with `first_assigned = now`, and finally `LeasePoolIsFull`. -/
theorem assign_four_step_policy (p : LeasePool) (st : PoolState)
    (nic : String) (now : Nat) :
    Assign p true st nic now = assignPolicy p st nic now := by
  unfold Assign assignPolicy
  rw [findUnused_eq_range]
  cases h1 : findByNic st nic with
  | some l => simp [newLease]
  | none =>
    cases h2 : (List.range p.rangeLen).find?
        (fun i => (lookupLease st (ipAdd p.startIP i)).isNone) with
    | some i => simp [newLease]
    | none =>
      cases h3 : findExpired st now with
      | some l => simp [newLease]
      | none => simp

/-- Claim C2: `Request(nic, ip)` follows exactly the four-case refresh
policy — own binding renewed regardless of expiry with `first_assigned`
preserved, unexpired foreign binding rejected, absent record granted only
when `nic` holds no other unexpired lease, expired foreign binding
rejected with `RefreshNoMatch`. -/
theorem request_refresh_policy (p : LeasePool) (st : PoolState)
    (nic : String) (currentIP now : Nat) :
    Request p true st nic currentIP now = requestPolicy p st nic currentIP now := by
  unfold Request requestPolicy
  cases h1 : lookupLease st currentIP with
  | some l =>
    have hip : l.ip = currentIP := by
      have := List.find?_some h1
      simpa using this
    by_cases h2 : l.nic == nic
    · simp [h2, newLease, hip]
    · simp [h2]
  | none => simp [newLease]

/-! ### Sequences of pool operations and the pool invariant -/

/-- One call into the pool: `Assign(nic)` or `Request(nic, ip)`, tagged
with the wall-clock instant `now` at which it runs. -/
inductive PoolOp where
  | assign (nic : String) (now : Nat)
  | request (nic : String) (ip : Nat) (now : Nat)
deriving DecidableEq, Repr

/-- The instant at which an operation runs. -/
def opNow : PoolOp → Nat
  | .assign _ now => now
  | .request _ _ now => now

/-- The hardware identifier an operation carries. -/
def opNic : PoolOp → String
  | .assign nic _ => nic
  | .request nic _ _ => nic

/-- Run one operation against the store (writes succeeding); a failed
operation leaves the subtree unchanged. -/
def applyOp (p : LeasePool) (st : PoolState) : PoolOp → PoolState
  | .assign nic now =>
    match Assign p true st nic now with
    | .ok (_, st1) => st1
    | .error _ => st
  | .request nic ip now =>
    match Request p true st nic ip now with
    | .ok (_, st1) => st1
    | .error _ => st

/-- Run a whole sequence of operations. -/
def runOps (p : LeasePool) : PoolState → List PoolOp → PoolState
  | st, [] => st
  | st, op :: ops => runOps p (applyOp p st op) ops

/-- Wall-clock monotonicity of a sequence of operations starting at `t`. -/
def timesOK : Nat → List PoolOp → Bool
  | _, [] => true
  | t, op :: ops => decide (t ≤ opNow op) && timesOK (opNow op) ops

/-- A valid lease per the spec: timestamps ordered and a non-empty
hardware identifier (the IP field is a 32-bit value by construction, so
the parsing clause of the spec holds trivially in this model). -/
def ValidLease (l : Lease) : Prop :=
  l.firstAssigned ≤ l.lastAssigned ∧ l.lastAssigned ≤ l.expireTime ∧ l.nic ≠ ""

instance (l : Lease) : Decidable (ValidLease l) := by
  unfold ValidLease; infer_instance

/-- Every stored lease is valid and was last touched no later than `t`. -/
def InvAt (st : PoolState) (t : Nat) : Prop :=
  ∀ l ∈ st, ValidLease l ∧ l.lastAssigned ≤ t

theorem mem_storeSet {x l : Lease} :
    ∀ {st : PoolState}, x ∈ storeSet st l → x = l ∨ x ∈ st := by
  intro st
  induction st with
  | nil => intro h; simpa [storeSet] using h
  | cons y ys ih =>
    intro h
    by_cases hy : y.ip == l.ip
    · rw [storeSet, if_pos hy] at h
      rcases List.mem_cons.mp h with h | h
      · exact .inl h
      · exact .inr (List.mem_cons_of_mem _ h)
    · rw [storeSet, if_neg hy] at h
      rcases List.mem_cons.mp h with h | h
      · exact .inr (by simp [h])
      · rcases ih h with h1 | h1
        · exact .inl h1
        · exact .inr (by simp [h1])

theorem invAt_mono {st : PoolState} {t t1 : Nat} (h : InvAt st t) (ht : t ≤ t1) :
    InvAt st t1 :=
  fun l hl => ⟨(h l hl).1, le_trans (h l hl).2 ht⟩

theorem invAt_storeSet {st : PoolState} {t now : Nat} {l0 : Lease}
    (hst : InvAt st t) (ht : t ≤ now) (hv : ValidLease l0)
    (hlast : l0.lastAssigned ≤ now) : InvAt (storeSet st l0) now := by
  intro x hx
  rcases mem_storeSet hx with rfl | hx
  · exact ⟨hv, hlast⟩
  · exact ⟨(hst x hx).1, le_trans (hst x hx).2 ht⟩

theorem newLease_none_sound {nic : String} {ip d now : Nat} (hn : nic ≠ "") :
    ValidLease (newLease nic ip d none now) ∧
      (newLease nic ip d none now).lastAssigned ≤ now := by
  simp [ValidLease, newLease, hn]

theorem newLease_some_sound {nic : String} {ip d now f : Nat} (hn : nic ≠ "")
    (hf : f ≤ now) :
    ValidLease (newLease nic ip d (some f) now) ∧
      (newLease nic ip d (some f) now).lastAssigned ≤ now := by
  simp [ValidLease, newLease, hn, hf]

theorem assign_state_invAt {p : LeasePool} {st st1 : PoolState} {nic : String}
    {now t ip : Nat} (hst : InvAt st t) (ht : t ≤ now) (hn : nic ≠ "")
    (h : Assign p true st nic now = .ok (ip, st1)) : InvAt st1 now := by
  unfold Assign at h
  cases h1 : findByNic st nic with
  | some l =>
    rw [h1] at h
    simp only [if_true, Except.ok.injEq, Prod.mk.injEq] at h
    obtain ⟨-, h⟩ := h
    subst h
    have hl : l ∈ st := List.mem_of_find?_eq_some h1
    have hv := hst l hl
    exact invAt_storeSet hst ht
      (newLease_some_sound hn (le_trans hv.1.1 (le_trans hv.2 ht))).1
      (newLease_some_sound hn (le_trans hv.1.1 (le_trans hv.2 ht))).2
  | none =>
    rw [h1] at h
    cases h2 : findUnused p st with
    | some j =>
      rw [h2] at h
      simp only [if_true, Except.ok.injEq, Prod.mk.injEq] at h
      obtain ⟨-, h⟩ := h
      subst h
      exact invAt_storeSet hst ht (newLease_none_sound hn).1 (newLease_none_sound hn).2
    | none =>
      rw [h2] at h
      cases h3 : findExpired st now with
      | some l =>
        rw [h3] at h
        simp only [if_true, Except.ok.injEq, Prod.mk.injEq] at h
        obtain ⟨-, h⟩ := h
        subst h
        exact invAt_storeSet hst ht (newLease_none_sound hn).1 (newLease_none_sound hn).2
      | none =>
        rw [h3] at h
        exact absurd h (by simp)

theorem request_state_invAt {p : LeasePool} {st st1 : PoolState} {nic : String}
    {currentIP now t ip : Nat} (hst : InvAt st t) (ht : t ≤ now) (hn : nic ≠ "")
    (h : Request p true st nic currentIP now = .ok (ip, st1)) : InvAt st1 now := by
  unfold Request at h
  cases h1 : lookupLease st currentIP with
  | some l =>
    rw [h1] at h
    dsimp only at h
    by_cases h2 : l.nic == nic
    · rw [if_pos h2] at h
      simp only [if_true, Except.ok.injEq, Prod.mk.injEq] at h
      obtain ⟨-, h⟩ := h
      subst h
      have hl : l ∈ st := List.mem_of_find?_eq_some h1
      have hv := hst l hl
      exact invAt_storeSet hst ht
        (newLease_some_sound hn (le_trans hv.1.1 (le_trans hv.2 ht))).1
        (newLease_some_sound hn (le_trans hv.1.1 (le_trans hv.2 ht))).2
    · rw [if_neg h2] at h
      split at h <;> exact absurd h (by simp)
  | none =>
    rw [h1] at h
    dsimp only at h
    split at h
    · exact absurd h (by simp)
    · simp only [if_true, Except.ok.injEq, Prod.mk.injEq] at h
      obtain ⟨-, h⟩ := h
      subst h
      exact invAt_storeSet hst ht (newLease_none_sound hn).1 (newLease_none_sound hn).2

theorem applyOp_invAt {p : LeasePool} {st : PoolState} {op : PoolOp} {t : Nat}
    (hst : InvAt st t) (ht : t ≤ opNow op) (hn : opNic op ≠ "") :
    InvAt (applyOp p st op) (opNow op) := by
  cases op with
  | assign nic now =>
    simp only [opNow] at ht ⊢
    simp only [opNic] at hn
    rw [applyOp]
    cases h : Assign p true st nic now with
    | ok pr =>
      obtain ⟨ip1, st1⟩ := pr
      exact assign_state_invAt hst ht hn h
    | error e => exact invAt_mono hst ht
  | request nic ip now =>
    simp only [opNow] at ht ⊢
    simp only [opNic] at hn
    rw [applyOp]
    cases h : Request p true st nic ip now with
    | ok pr =>
      obtain ⟨ip1, st1⟩ := pr
      exact request_state_invAt hst ht hn h
    | error e => exact invAt_mono hst ht

theorem runOps_invAt {p : LeasePool} :
    ∀ (ops : List PoolOp) (st : PoolState) (t : Nat), InvAt st t →
      timesOK t ops = true → (∀ op ∈ ops, opNic op ≠ "") →
      ∃ t1, t ≤ t1 ∧ InvAt (runOps p st ops) t1 := by
  intro ops
  induction ops with
  | nil => exact fun st t h _ _ => ⟨t, le_refl t, h⟩
  | cons op ops ih =>
    intro st t h htok hnic
    rw [timesOK, Bool.and_eq_true, decide_eq_true_eq] at htok
    obtain ⟨ht, htok2⟩ := htok
    have hstep := @applyOp_invAt p st op t h ht (hnic op (by simp))
    obtain ⟨t1, ht1, hinv⟩ :=
      ih (applyOp p st op) (opNow op) hstep htok2 (fun o ho => hnic o (by simp [ho]))
    exact ⟨t1, le_trans ht ht1, hinv⟩

/-- Claim C5 (amended): starting from an empty leases subtree, every
time-monotone sequence of Assign and Request operations with non-empty
nic arguments keeps every stored record a valid Lease.  The second half
of the original claim — that no two distinct keys ever hold leases with
the same hardware identifier both non-expired — is refuted separately on
a concrete operation sequence. -/
theorem pool_ops_preserve_valid (p : LeasePool) (ops : List PoolOp) (t0 : Nat)
    (hmono : timesOK t0 ops = true) (hnic : ∀ op ∈ ops, opNic op ≠ "") :
    ∀ l ∈ runOps p [] ops, ValidLease l := by
  obtain ⟨t1, -, hinv⟩ :=
    runOps_invAt ops [] t0 (fun l hl => absurd hl (List.not_mem_nil l)) hmono hnic
  exact fun l hl => (hinv l hl).1

/-- Witness for the amended C5 theorem on a concrete operation sequence:
the lease the run stores is valid. -/
theorem pool_ops_preserve_valid_witness :
    ValidLease { nic := "a", ip := 10, firstAssigned := 0,
                 lastAssigned := 0, expireTime := 5 } :=
  pool_ops_preserve_valid ⟨10, 2, 5⟩ [.assign "a" 0] 0
    (by decide) (by decide) _ (by decide)

/-- The pool used in the duplicate-nic counterexample:
start IP 10, range 2, lease duration 1. -/
def cexPool : LeasePool := ⟨10, 2, 1⟩

/-- The operation sequence of the duplicate-nic counterexample:
`Assign("a")` at time 0, `Request("a", 11)` at time 2 (after the first
lease expired), then `Assign("a")` at time 2 again. -/
def cexOps : List PoolOp := [.assign "a" 0, .request "a" 11 2, .assign "a" 2]

/-- Claim C5 counterexample: a time-monotone sequence of Assign and
Request calls with non-empty nics and positive lease duration leaves two
distinct keys holding leases with the same hardware identifier that are
both non-expired at the time of the last call — Request grants a second
IP to a nic whose earlier lease expired, and the next Assign sticky-renews
the expired one. -/
theorem pool_duplicate_nic_counterexample :
    timesOK 0 cexOps = true ∧ (∀ op ∈ cexOps, opNic op ≠ "") ∧
    0 < cexPool.expireDuration ∧
    ∃ l1 ∈ runOps cexPool [] cexOps, ∃ l2 ∈ runOps cexPool [] cexOps,
      l1.ip ≠ l2.ip ∧ l1.nic = l2.nic ∧ 2 < l1.expireTime ∧ 2 < l2.expireTime := by
  decide

/-! ### Sticky renewal across two Assign calls (claim C9) -/

/-- Claim C9: from an empty pool, two successive `Assign(m)` calls return
the same IP (the first address of the range); the second call preserves
`first_assigned` and sets `last_assigned` to its own instant and
`expire_time` to that instant plus the lease duration. -/
theorem assign_sticky_renewal (p : LeasePool) (m : String) (t1 t2 : Nat)
    (h : 0 < p.rangeLen) :
    Assign p true [] m t1 =
      .ok (ipAdd p.startIP 0,
        [{ nic := m, ip := ipAdd p.startIP 0, firstAssigned := t1,
           lastAssigned := t1, expireTime := t1 + p.expireDuration }]) ∧
    Assign p true
        [{ nic := m, ip := ipAdd p.startIP 0, firstAssigned := t1,
           lastAssigned := t1, expireTime := t1 + p.expireDuration }] m t2 =
      .ok (ipAdd p.startIP 0,
        [{ nic := m, ip := ipAdd p.startIP 0, firstAssigned := t1,
           lastAssigned := t2, expireTime := t2 + p.expireDuration }]) := by
  constructor
  · obtain ⟨r, hr⟩ : ∃ r, p.rangeLen = r + 1 := ⟨p.rangeLen - 1, by omega⟩
    unfold Assign
    simp [findByNic, findUnused, hr, findUnusedGo, lookupLease, newLease, storeSet]
  · unfold Assign
    simp [findByNic, newLease, storeSet]

/-- Witness for C9 at a concrete pool, nic and pair of instants. -/
theorem assign_sticky_renewal_witness :
    Assign ⟨10, 3, 100⟩ true [] "a" 5 =
      .ok (ipAdd 10 0,
        [{ nic := "a", ip := ipAdd 10 0, firstAssigned := 5,
           lastAssigned := 5, expireTime := 105 }]) ∧
    Assign ⟨10, 3, 100⟩ true
        [{ nic := "a", ip := ipAdd 10 0, firstAssigned := 5,
           lastAssigned := 5, expireTime := 105 }] "a" 7 =
      .ok (ipAdd 10 0,
        [{ nic := "a", ip := ipAdd 10 0, firstAssigned := 5,
           lastAssigned := 7, expireTime := 107 }]) :=
  assign_sticky_renewal ⟨10, 3, 100⟩ "a" 5 7 (by decide)

/-! ### Store-write error reporting (claim C4) -/

/-- The pool state of the swallowed-store-error counterexample: one lease
binding nic `"a"` to IP 10. -/
def c4state : PoolState := [⟨"a", 10, 0, 0, 5⟩]

/-- Claim C4 counterexample: the sticky step of `Assign` performs a store
write; when that write fails the call still reports success (and the
unchanged state), so the failure is silently discarded rather than
returned to the caller. -/
theorem store_error_swallowed_counterexample :
    Assign ⟨10, 2, 100⟩ false c4state "a" 1 = .ok (10, c4state) := rfl

/-- Claim C4 (amended): only the unused-slot write of `Assign` reports a
failed store write to the caller; the sticky-renewal write reports
success with the stale state, and `Request` never surfaces a store
failure in any of its paths. -/
theorem store_error_reporting_amended (p : LeasePool) (st : PoolState)
    (nic : String) (ip now : Nat) :
    (Assign p false st nic now = .error .storeErr ↔
      findByNic st nic = none ∧ (findUnused p st).isSome = true) ∧
    (∀ l, findByNic st nic = some l →
      Assign p false st nic now = .ok (l.ip, st)) ∧
    (Request p false st nic ip now ≠ .error .storeErr) := by
  refine ⟨?_, ?_, ?_⟩
  · unfold Assign
    cases h1 : findByNic st nic with
    | some l => simp
    | none =>
      cases h2 : findUnused p st with
      | some j => simp
      | none =>
        cases h3 : findExpired st now with
        | some l => simp
        | none => simp
  · intro l hl
    unfold Assign
    rw [hl]
    simp
  · unfold Request
    cases h1 : lookupLease st ip with
    | some l =>
      by_cases h2 : l.nic == nic
      · simp [h2]
      · by_cases h3 : now < l.expireTime <;> simp [h2, h3]
    | none =>
      by_cases h2 : st.any (fun l => l.nic == nic && now < l.expireTime) <;> simp [h2]

/-- Witness for the amended C4 theorem: with one free slot and a failing
store, `Assign` for an unknown nic does report the store error. -/
theorem store_error_reporting_amended_witness :
    Assign ⟨10, 1, 100⟩ false [] "c" 0 = .error .storeErr :=
  (store_error_reporting_amended ⟨10, 1, 100⟩ [] "c" 0 0).1.mpr (by decide)

/-! ### The Leases listing (claim C8)

`Leases()` performs a recursive etcd `Get` on the leases subtree and
rebuilds the map.  The etcd response and the JSON unmarshalling are
abstracted: `GetResult` is the outcome of the `Get`, and `unmarshal`
stands for `json.Unmarshal` on a stored value. -/

/-- The outcome of the recursive etcd `Get` on the leases subtree. -/
inductive GetResult where
  | keyNotFound
  | getErr
  | found (nodes : List (List Nat))
deriving DecidableEq, Repr

/-- The `for i := range response.Node.Nodes` loop of `Leases`: unmarshal
every node value into the map keyed by the lease's IP, aborting with
`FoundInvalidLease` at the first value that fails to deserialize. -/
def leasesFold (unmarshal : List Nat → Option Lease) :
    List (List Nat) → PoolState → Except PoolErr PoolState
  | [], acc => .ok acc
  | v :: vs, acc =>
    match unmarshal v with
    | some lease => leasesFold unmarshal vs (storeSet acc lease)
    | none => .error .foundInvalidLease

/-- `func (p *LeasePool) Leases()` — on `keyNotFound` create the subtree
as an empty directory (the returned flag records that this `Set` was
issued; `setDirOk` tells whether it succeeds) and return the empty map;
on any other `Get` failure propagate the error; otherwise fold over the
nodes. -/
def Leases (unmarshal : List Nat → Option Lease) (setDirOk : Bool)
    (resp : GetResult) : Except PoolErr (PoolState × Bool) :=
  match resp with
  | .keyNotFound => if setDirOk then .ok ([], true) else .error .storeErr
  | .getErr => .error .storeErr
  | .found nodes =>
    match leasesFold unmarshal nodes [] with
    | .ok m => .ok (m, false)
    | .error e => .error e

theorem lookupLease_storeSet (l : Lease) (k : Nat) :
    ∀ st : PoolState, lookupLease (storeSet st l) k =
      if l.ip == k then some l else lookupLease st k := by
  intro st
  induction st with
  | nil =>
    simp only [storeSet, lookupLease, List.find?_cons, List.find?_nil]
    cases hc : l.ip == k <;> simp_all
  | cons x xs ih =>
    by_cases hx : x.ip == l.ip
    · have hxeq : x.ip = l.ip := by simpa using hx
      rw [storeSet, if_pos hx]
      by_cases hlk : l.ip == k
      · simp [lookupLease, List.find?_cons, hlk]
      · have hlk2 : ¬l.ip = k := by simpa using hlk
        simp [lookupLease, List.find?_cons, hlk2, hxeq]
    · rw [storeSet, if_neg hx]
      by_cases hxk : x.ip == k
      · have h1 : ¬l.ip = k := by
          intro hlk
          apply hx
          have h2 : x.ip = k := by simpa using hxk
          simp [h2, hlk]
        simp [lookupLease, List.find?_cons, hxk, h1]
      · have hxk2 : ¬x.ip = k := by simpa using hxk
        simpa [lookupLease, List.find?_cons, hxk2] using ih

theorem lookupLease_storeSet_self (l : Lease) (st : PoolState) :
    lookupLease (storeSet st l) l.ip = some l := by
  rw [lookupLease_storeSet]
  simp

theorem lookupLease_storeSet_isSome {k : Nat} (l : Lease) (st : PoolState)
    (h : (lookupLease st k).isSome = true) :
    (lookupLease (storeSet st l) k).isSome = true := by
  rw [lookupLease_storeSet]
  by_cases hlk : l.ip == k
  · simp [hlk]
  · simpa [hlk] using h

theorem leasesFold_preserves_key (u : List Nat → Option Lease) :
    ∀ (nodes : List (List Nat)) (acc m : PoolState) (k : Nat),
      leasesFold u nodes acc = .ok m → (lookupLease acc k).isSome = true →
      (lookupLease m k).isSome = true := by
  intro nodes
  induction nodes with
  | nil =>
    intro acc m k h hk
    rw [leasesFold] at h
    cases h
    exact hk
  | cons v vs ih =>
    intro acc m k h hk
    rw [leasesFold] at h
    cases hv : u v with
    | some lease =>
      rw [hv] at h
      exact ih _ m k h (lookupLease_storeSet_isSome lease acc hk)
    | none => rw [hv] at h; cases h

theorem leasesFold_all_some (u : List Nat → Option Lease) :
    ∀ (nodes : List (List Nat)) (acc : PoolState),
      (∀ v ∈ nodes, (u v).isSome = true) →
      ∃ m, leasesFold u nodes acc = .ok m ∧
        (∀ v ∈ nodes, ∀ l, u v = some l → (lookupLease m l.ip).isSome = true) ∧
        (∀ l ∈ m, l ∈ acc ∨ ∃ v ∈ nodes, u v = some l) := by
  intro nodes
  induction nodes with
  | nil =>
    intro acc _
    exact ⟨acc, rfl, by simp, fun l hl => .inl hl⟩
  | cons v vs ih =>
    intro acc hall
    obtain ⟨lease, hv⟩ := Option.isSome_iff_exists.mp (hall v (by simp))
    obtain ⟨m, heq, h2, h3⟩ :=
      ih (storeSet acc lease) (fun w hw => hall w (by simp [hw]))
    refine ⟨m, ?_, ?_, ?_⟩
    · rw [leasesFold, hv]
      exact heq
    · intro w hw l hl
      rcases List.mem_cons.mp hw with rfl | hw
      · obtain rfl : lease = l := Option.some.inj (hv.symm.trans hl)
        refine leasesFold_preserves_key u vs _ m lease.ip heq ?_
        rw [lookupLease_storeSet_self]
        rfl
      · exact h2 w hw l hl
    · intro l hl
      rcases h3 l hl with hmem | ⟨w, hw, hwl⟩
      · rcases mem_storeSet hmem with rfl | hacc
        · exact .inr ⟨v, by simp, hv⟩
        · exact .inl hacc
      · exact .inr ⟨w, by simp [hw], hwl⟩

theorem leasesFold_err (u : List Nat → Option Lease) :
    ∀ (nodes : List (List Nat)) (acc : PoolState),
      (∃ v ∈ nodes, u v = none) →
      leasesFold u nodes acc = .error .foundInvalidLease := by
  intro nodes
  induction nodes with
  | nil => intro acc h; simp at h
  | cons v vs ih =>
    intro acc ⟨w, hw, hwl⟩
    rcases List.mem_cons.mp hw with rfl | hw
    · rw [leasesFold, hwl]
    · cases hv : u v with
      | some lease => rw [leasesFold, hv]; exact ih _ ⟨w, hw, hwl⟩
      | none => rw [leasesFold, hv]

/-- Claim C8: `Leases()` creates the subtree as an empty directory and
returns the empty map when the subtree is missing; when every stored
value deserializes it returns the full map (every decoded lease is
reachable under its IP key and every entry comes from some node); and
any value that fails to deserialize aborts the whole listing with
`FoundInvalidLease`. -/
theorem leases_full_map_or_abort (u : List Nat → Option Lease)
    (nodes : List (List Nat)) :
    Leases u true .keyNotFound = .ok ([], true) ∧
    ((∀ v ∈ nodes, (u v).isSome = true) →
      ∃ m, Leases u true (.found nodes) = .ok (m, false) ∧
        (∀ v ∈ nodes, ∀ l, u v = some l → (lookupLease m l.ip).isSome = true) ∧
        (∀ l ∈ m, ∃ v ∈ nodes, u v = some l)) ∧
    ((∃ v ∈ nodes, u v = none) →
      Leases u true (.found nodes) = .error .foundInvalidLease) := by
  refine ⟨rfl, ?_, ?_⟩
  · intro hall
    obtain ⟨m, heq, h2, h3⟩ := leasesFold_all_some u nodes [] hall
    refine ⟨m, ?_, h2, ?_⟩
    · rw [Leases, heq]
    · intro l hl
      rcases h3 l hl with hmem | h
      · simp at hmem
      · exact h
  · intro hbad
    rw [Leases, leasesFold_err u nodes [] hbad]

/-- An unmarshaller that rejects every stored value, for the C8 witness. -/
def badDecode : List Nat → Option Lease := fun _ => none

/-- Witness for C8: a single undecodable stored value aborts the listing
with `FoundInvalidLease`. -/
theorem leases_full_map_or_abort_witness :
    Leases badDecode true (.found [[7]]) = .error .foundInvalidLease :=
  (leases_full_map_or_abort badDecode [[7]]).2.2 ⟨[7], by simp, rfl⟩

/-! ## TFTP read-only server (src/tftp/tftp.go)

Byte strings are `List Nat` (each element one byte). -/

/-- `binary.BigEndian.Uint16` on two bytes. -/
def u16 (hi lo : Nat) : Nat := hi * 256 + lo

/-- `func nullStr` — split a byte string at its first NUL;
`none` when no NUL exists (the Go `ok = false` case). -/
def nullStr : List Nat → Option (List Nat × List Nat)
  | [] => none
  | c :: rest =>
    if c = 0 then some ([], rest)
    else (nullStr rest).map (fun pr => (c :: pr.1, pr.2))

/-- One byte of a decimal digit. -/
def isDigit (c : Nat) : Bool := 48 ≤ c && c ≤ 57

/-- The all-digits value of a non-empty digit string. -/
def digitsVal? (s : List Nat) : Option Nat :=
  if !s.isEmpty && s.all isDigit then
    some (s.foldl (fun a c => a * 10 + (c - 48)) 0)
  else none

/-- `strconv.Atoi` — an optional sign followed by a non-empty digit
string (the 64-bit overflow bound is not modelled; every value a TFTP
option can legally carry is tiny). -/
def atoi (s : List Nat) : Option Int :=
  match s with
  | 43 :: rest => (digitsVal? rest).map (fun n => (n : Int))
  | 45 :: rest => (digitsVal? rest).map (fun n => -(n : Int))
  | _ => (digitsVal? s).map (fun n => (n : Int))

/-- `type rrq struct` — filename and negotiated block size (`int` in Go,
zero when the option was absent). -/
structure Rrq where
  filename : List Nat
  blockSize : Int
deriving DecidableEq, Repr

/-- The distinguishable parse failures of `parseRRQ` (each corresponds to
one `fmt.Errorf` site). -/
inductive ParseErr where
  | tooSmall
  | notRRQ
  | noFilename
  | noMode
  | badMode
  | untermOptName
  | untermOptVal
  | nonInteger
  | badBlksize
deriving DecidableEq, Repr

/-- The byte string `octet`. -/
def octetBytes : List Nat := [111, 99, 116, 101, 116]

/-- The byte string `blksize`. -/
def blksizeBytes : List Nat := [98, 108, 107, 115, 105, 122, 101]

/-- The option loop of `parseRRQ` (`for len(b) > 0`).  The first argument
bounds the number of iterations; every iteration consumes at least one
byte, so starting it at the byte length of the input makes it exactly the
Go loop (the fuel-exhaustion arm is unreachable then). -/
def parseOptsGo : Nat → List Nat → Rrq → Except ParseErr Rrq
  | _, [], req => .ok req
  | 0, _ :: _, _ => .error .untermOptName
  | fuel + 1, c :: rest, req =>
    match nullStr (c :: rest) with
    | none => .error .untermOptName
    | some (opt, b1) =>
      match nullStr b1 with
      | none => .error .untermOptVal
      | some (valStr, b2) =>
        match atoi valStr with
        | none => .error .nonInteger
        | some val =>
          if opt = blksizeBytes then
            if val < 8 ∨ val > 65464 then .error .badBlksize
            else parseOptsGo fuel b2
              { req with blockSize := if val > 1450 then 1450 else val }
          else parseOptsGo fuel b2 req

/-- The option loop started with enough fuel for its input. -/
def parseOpts (b : List Nat) (req : Rrq) : Except ParseErr Rrq :=
  parseOptsGo b.length b req

/-- `func parseRRQ` — minimum length 6, opcode 1, null-terminated
filename, mandatory literal `octet` mode, then the option pairs. -/
def parseRRQ (b : List Nat) : Except ParseErr Rrq :=
  if b.length < 6 then .error .tooSmall
  else
    match b with
    | b0 :: b1 :: rest =>
      if u16 b0 b1 ≠ 1 then .error .notRRQ
      else
        match nullStr rest with
        | none => .error .noFilename
        | some (fname, rest1) =>
          match nullStr rest1 with
          | none => .error .noMode
          | some (mode, rest2) =>
            if mode ≠ octetBytes then .error .badMode
            else parseOpts rest2 { filename := fname, blockSize := 0 }
    | _ => .error .tooSmall

theorem nullStr_eq_none_of_not_mem {b : List Nat} (h : 0 ∉ b) :
    nullStr b = none := by
  induction b with
  | nil => rfl
  | cons c rest ih =>
    have h1 : ¬c = 0 := fun hc => h (by simp [hc])
    have h2 : 0 ∉ rest := fun hc => h (by simp [hc])
    rw [nullStr, if_neg h1, ih h2]
    rfl

theorem nullStr_append (s rest : List Nat) (h : 0 ∉ s) :
    nullStr (s ++ 0 :: rest) = some (s, rest) := by
  induction s with
  | nil => simp [nullStr]
  | cons c cs ih =>
    have h1 : ¬c = 0 := fun hc => h (by simp [hc])
    have h2 : 0 ∉ cs := fun hc => h (by simp [hc])
    simp [nullStr, h1, ih h2]

/-- Claim C6 counterexample: a 9-byte RRQ whose filename field is empty
(a NUL directly after the opcode) is accepted by the parser with an empty
filename — the claimed rejection of empty filenames does not happen. -/
theorem parse_empty_filename_accepted :
    parseRRQ ([0, 1, 0] ++ octetBytes ++ [0]) =
      .ok { filename := [], blockSize := 0 } := rfl

/-- Claim C6 (amended): the parser rejects a request whose filename field
is unterminated (no NUL anywhere after the opcode); an empty but
terminated filename is accepted whenever the rest of the request is
well-formed, since only the 6-byte minimum length guards it. -/
theorem parse_rejects_unterminated_filename (b0 b1 : Nat) (rest : List Nat)
    (hlen : 4 ≤ rest.length) (hop : u16 b0 b1 = 1) (hz : 0 ∉ rest) :
    parseRRQ (b0 :: b1 :: rest) = .error .noFilename := by
  have h6 : ¬((b0 :: b1 :: rest).length < 6) := by
    simp only [List.length_cons]
    omega
  rw [parseRRQ, if_neg h6]
  rw [if_neg (by simp [hop]), nullStr_eq_none_of_not_mem hz]

/-- Witness for the amended C6 theorem on a concrete 6-byte datagram. -/
theorem parse_rejects_unterminated_filename_witness :
    parseRRQ [0, 1, 97, 98, 99, 100] = .error .noFilename :=
  parse_rejects_unterminated_filename 0 1 [97, 98, 99, 100]
    (by decide) (by decide) (by decide)

/-! ### OACK and block-size clamping (claim C10) -/

/-- The block size `transfer` actually uses to cut DATA payloads:
`bsize := 512`, overridden by `req.BlockSize` when positive. -/
def usedBsize (req : Rrq) : Int :=
  if req.blockSize > 0 then req.blockSize else 512

/-- Decimal digit bytes of a natural number (`fmt.Sprintf` with the
decimal verb). -/
def natDecimal (n : Nat) : List Nat := (Nat.toDigits 10 n).map Char.toNat

/-- Decimal digit bytes of an integer. -/
def intDecimal (v : Int) : List Nat :=
  if v < 0 then 45 :: natDecimal v.natAbs else natDecimal v.toNat

/-- The OACK packet `transfer` sends when `req.BlockSize > 0`: opcode 6
followed by `blksize NUL <req.BlockSize> NUL`. -/
def oackPacket (req : Rrq) : List Nat :=
  [0, 6] ++ blksizeBytes ++ [0] ++ intDecimal req.blockSize ++ [0]

/-- A well-formed RRQ datagram requesting only the `blksize` option with
value bytes `valStr`. -/
def rrqPacket (fname valStr : List Nat) : List Nat :=
  [0, 1] ++ fname ++ [0] ++ octetBytes ++ [0] ++ blksizeBytes ++ [0] ++ valStr ++ [0]

theorem parseOptsGo_blockSize_le :
    ∀ (fuel : Nat) (b : List Nat) (req r : Rrq), 0 ≤ req.blockSize →
      req.blockSize ≤ 1450 → parseOptsGo fuel b req = .ok r →
      0 ≤ r.blockSize ∧ r.blockSize ≤ 1450 := by
  intro fuel
  induction fuel with
  | zero =>
    intro b req r h0 h1 h
    cases b with
    | nil => rw [parseOptsGo] at h; cases h; exact ⟨h0, h1⟩
    | cons c rest => rw [parseOptsGo] at h; cases h
  | succ k ih =>
    intro b req r h0 h1 h
    cases b with
    | nil => rw [parseOptsGo] at h; cases h; exact ⟨h0, h1⟩
    | cons c rest =>
      rw [parseOptsGo] at h
      cases hn1 : nullStr (c :: rest) with
      | none => rw [hn1] at h; cases h
      | some pr1 =>
        obtain ⟨opt, b1⟩ := pr1
        rw [hn1] at h
        dsimp only at h
        cases hn2 : nullStr b1 with
        | none => rw [hn2] at h; cases h
        | some pr2 =>
          obtain ⟨valStr, b2⟩ := pr2
          rw [hn2] at h
          dsimp only at h
          cases ha : atoi valStr with
          | none => rw [ha] at h; cases h
          | some val =>
            rw [ha] at h
            dsimp only at h
            by_cases hopt : opt = blksizeBytes
            · rw [if_pos hopt] at h
              by_cases hrange : val < 8 ∨ val > 65464
              · rw [if_pos hrange] at h; cases h
              · rw [if_neg hrange] at h
                obtain ⟨hlo, hhi⟩ := not_or.mp hrange
                refine ih b2 _ r ?_ ?_ h
                · dsimp only
                  split
                  · decide
                  · omega
                · dsimp only
                  split
                  · decide
                  · omega
            · rw [if_neg hopt] at h
              exact ih b2 req r h0 h1 h

theorem parseOptsGo_blksize_option (k : Nat) (valStr : List Nat) (req : Rrq)
    (v : Int) (hs : 0 ∉ valStr) (hv : atoi valStr = some v)
    (hlo : ¬v < 8) (hhi : ¬v > 65464) :
    parseOptsGo (k + 1) (blksizeBytes ++ 0 :: (valStr ++ [0])) req =
      .ok { req with blockSize := if v > 1450 then 1450 else v } := by
  have h1 : nullStr (blksizeBytes ++ 0 :: (valStr ++ [0])) =
      some (blksizeBytes, valStr ++ [0]) :=
    nullStr_append blksizeBytes _ (by decide)
  have h2 : nullStr (valStr ++ 0 :: []) = some (valStr, []) :=
    nullStr_append valStr [] hs
  simp only [blksizeBytes, List.cons_append, List.nil_append] at h1 ⊢
  rw [parseOptsGo, h1]
  (try dsimp only)
  rw [h2]
  (try dsimp only)
  rw [hv]
  (try dsimp only)
  rw [if_pos (show [98, 108, 107, 115, 105, 122, 101] = blksizeBytes from rfl),
    if_neg (not_or.mpr ⟨hlo, hhi⟩)]
  rw [parseOptsGo]

/-- Claim C10: the block size used to cut DATA payloads and the one the
OACK advertises are both `req.BlockSize`, hence always equal; parsing
clamps every accepted request to at most 1450, so an RRQ requesting
`v` with `1450 < v ≤ 65464` is accepted with block size
`1450 = min v 1450` and the OACK can never advertise the original `v`. -/
theorem oack_advertises_clamped_blocksize (b : List Nat) (r : Rrq)
    (fname valStr : List Nat) (v : Int) :
    (parseRRQ b = .ok r → 0 ≤ r.blockSize ∧ r.blockSize ≤ 1450) ∧
    (0 < r.blockSize → usedBsize r = r.blockSize ∧
      oackPacket r = [0, 6] ++ blksizeBytes ++ [0] ++ intDecimal (usedBsize r) ++ [0]) ∧
    (0 ∉ fname → 0 ∉ valStr → atoi valStr = some v → 1450 < v → v ≤ 65464 →
      parseRRQ (rrqPacket fname valStr) = .ok { filename := fname, blockSize := 1450 }) := by
  refine ⟨?_, ?_, ?_⟩
  · intro h
    rcases b with _ | ⟨b0, _ | ⟨b1, rest⟩⟩
    · simp [parseRRQ] at h
    · simp [parseRRQ] at h
    · rw [parseRRQ] at h
      by_cases h6 : (b0 :: b1 :: rest).length < 6
      · rw [if_pos h6] at h; cases h
      · rw [if_neg h6] at h
        by_cases hop : u16 b0 b1 ≠ 1
        · rw [if_pos hop] at h; cases h
        · rw [if_neg hop] at h
          cases hn1 : nullStr rest with
          | none => rw [hn1] at h; cases h
          | some pr1 =>
            obtain ⟨fn, rest1⟩ := pr1
            rw [hn1] at h
            (try dsimp only at h)
            cases hn2 : nullStr rest1 with
            | none => rw [hn2] at h; cases h
            | some pr2 =>
              obtain ⟨mode, rest2⟩ := pr2
              rw [hn2] at h
              (try dsimp only at h)
              by_cases hm : mode ≠ octetBytes
              · rw [if_pos hm] at h; cases h
              · rw [if_neg hm] at h
                rw [parseOpts] at h
                exact parseOptsGo_blockSize_le _ _ _ r (le_refl 0)
                  (by dsimp only; decide) h
  · intro hpos
    have h1 : usedBsize r = r.blockSize := by rw [usedBsize, if_pos hpos]
    exact ⟨h1, by rw [oackPacket, h1]⟩
  · intro hf hs hv h1450 h65
    have e1 := nullStr_append fname
      (octetBytes ++ 0 :: (blksizeBytes ++ 0 :: (valStr ++ [0]))) hf
    have e2 := nullStr_append octetBytes
      (blksizeBytes ++ 0 :: (valStr ++ [0])) (by decide)
    simp only [rrqPacket, List.append_assoc, List.cons_append, List.nil_append]
    rw [parseRRQ]
    rw [if_neg (by simp [octetBytes, blksizeBytes, List.length_append]; omega)]
    rw [if_neg (by decide : ¬(u16 0 1 ≠ 1))]
    simp only [e1, e2]
    rw [if_neg (fun hc => hc rfl : ¬(octetBytes ≠ octetBytes))]
    rw [parseOpts]
    have hlen2 : (blksizeBytes ++ 0 :: (valStr ++ [0])).length = valStr.length + 8 + 1 := by
      simp [blksizeBytes]
    rw [hlen2]
    rw [parseOptsGo_blksize_option (valStr.length + 8) valStr _ v hs hv
      (by omega) (by omega)]
    rw [if_pos h1450]

/-- Witness for C10: the RRQ `foo`-less packet requesting `blksize 4096`
parses to the clamped block size 1450. -/
theorem oack_advertises_clamped_blocksize_witness :
    parseRRQ (rrqPacket [102] [52, 48, 57, 54]) =
      .ok { filename := [102], blockSize := 1450 } :=
  (oack_advertises_clamped_blocksize [] ⟨[], 0⟩ [102] [52, 48, 57, 54] 4096).2.2
    (by decide) (by decide) (by decide) (by decide) (by decide)

/-! ### The stop-and-wait send discipline (claim C7)

`sendPacket` writes one packet and waits up to one second for a reply,
retrying up to `numRetries` times.  The network is modelled as the list
of reply windows: element `i` holds the packets that arrive during
attempt `i`, and a window that runs out is the read timeout. -/

/-- A received datagram. -/
abbrev Packet := List Nat

/-- The terminal outcomes of `sendPacket`: `nil` return, the
client-abort error, or the retries-exhausted timeout error naming the
block number. -/
inductive SendResult where
  | ok
  | clientAbort (msg : List Nat)
  | timedOut (seq : Nat)
deriving DecidableEq, Repr

/-- `msg, _, _ := nullStr(recv[4:])` — the message of an ERROR packet.
The Go scan runs over the zero-initialized 256-byte receive buffer, so a
message shorter than the buffer is always terminated; for a packet that
carries no NUL of its own the padding NUL right after it yields the whole
remainder. -/
def errMsg (b : List Nat) : List Nat :=
  match nullStr b with
  | some pr => pr.1
  | none => b

/-- The inner read loop of one send attempt: drop packets shorter than 4
bytes, succeed on an ACK whose block number matches `seq`, keep waiting
on any other ACK or opcode, abort on an ERROR packet; `none` is the
1-second read deadline expiring after the listed packets. -/
def procWindow (seq : Nat) : List Packet → Option SendResult
  | [] => none
  | pkt :: rest =>
    match pkt with
    | a :: b :: c :: d :: tail =>
      if u16 a b = 4 then
        if u16 c d = seq then some .ok else procWindow seq rest
      else if u16 a b = 5 then some (.clientAbort (errMsg tail))
      else procWindow seq rest
    | _ => procWindow seq rest

/-- `const numRetries = 5`. -/
def numRetries : Nat := 5

/-- The `for try := 0; try < numRetries; try++` loop: run one attempt on
the next reply window, return its decisive outcome, or retry on timeout;
exhausting the attempts is the timeout error for `seq`. -/
def sendLoop (seq : Nat) : Nat → List (List Packet) → SendResult
  | 0, _ => .timedOut seq
  | k + 1, ws =>
    match procWindow seq (ws.headD []) with
    | some r => r
    | none => sendLoop seq k ws.tail

/-- `func sendPacket` (the reply stream abstracted as the windows). -/
def sendPacket (ws : List (List Packet)) (seq : Nat) : SendResult :=
  sendLoop seq numRetries ws

/-- A well-formed ACK for sequence number `seq`. -/
def ackMatches (seq : Nat) : Packet → Bool
  | a :: b :: c :: d :: _ => decide (u16 a b = 4 ∧ u16 c d = seq)
  | _ => false

/-- A packet that terminates the wait: a matching ACK or any ERROR. -/
def decisive (seq : Nat) : Packet → Bool
  | a :: b :: c :: d :: _ => decide ((u16 a b = 4 ∧ u16 c d = seq) ∨ u16 a b = 5)
  | _ => false

theorem procWindow_char (seq : Nat) :
    ∀ w : List Packet, procWindow seq w =
      match w.find? (decisive seq) with
      | none => none
      | some p =>
        some (if ackMatches seq p then .ok else .clientAbort (errMsg (p.drop 4))) := by
  intro w
  induction w with
  | nil => rfl
  | cons pkt rest ih =>
    rcases pkt with _ | ⟨a, _ | ⟨b, _ | ⟨c, _ | ⟨d, tail⟩⟩⟩⟩
    · simpa [procWindow, List.find?_cons, decisive] using ih
    · simpa [procWindow, List.find?_cons, decisive] using ih
    · simpa [procWindow, List.find?_cons, decisive] using ih
    · simpa [procWindow, List.find?_cons, decisive] using ih
    · by_cases h4 : u16 a b = 4
      · by_cases hseq : u16 c d = seq
        · simp [procWindow, List.find?_cons, decisive, ackMatches, h4, hseq]
        · simpa [procWindow, List.find?_cons, decisive, ackMatches, h4, hseq] using ih
      · by_cases h5 : u16 a b = 5
        · simp [procWindow, List.find?_cons, decisive, ackMatches, h4, h5]
        · simpa [procWindow, List.find?_cons, decisive, ackMatches, h4, h5] using ih

theorem sendLoop_char (seq : Nat) :
    ∀ (k : Nat) (ws : List (List Packet)), sendLoop seq k ws =
      match ((ws.take k).flatten).find? (decisive seq) with
      | none => .timedOut seq
      | some p =>
        if ackMatches seq p then .ok else .clientAbort (errMsg (p.drop 4)) := by
  intro k
  induction k with
  | zero => intro ws; simp [sendLoop]
  | succ k ih =>
    intro ws
    cases ws with
    | nil => simp [sendLoop, procWindow, ih]
    | cons w ws1 =>
      rw [sendLoop]
      simp only [List.headD_cons, List.tail_cons]
      rw [procWindow_char seq w]
      cases hw : w.find? (decisive seq) with
      | some p =>
        simp [hw, List.take_succ_cons, List.flatten_cons, List.find?_append]
      | none =>
        simp [hw, List.take_succ_cons, List.flatten_cons, List.find?_append, ih ws1]

/-- Claim C7: the outcome of `sendPacket` is decided by the first
decisive packet among the replies of the first 5 attempts — a matching
ACK (opcode 4, block number `seq`) yields success, an ERROR (opcode 5)
aborts at once with the client's null-terminated message, and if no
decisive packet arrives in any of the 5 attempts the transfer fails with
the timeout error naming `seq`. -/
theorem sendPacket_stop_and_wait (ws : List (List Packet)) (seq : Nat) :
    sendPacket ws seq =
      match ((ws.take numRetries).flatten).find? (decisive seq) with
      | none => .timedOut seq
      | some p =>
        if ackMatches seq p then .ok else .clientAbort (errMsg (p.drop 4)) :=
  sendLoop_char seq numRetries ws

/-! ### The DATA-cutting transfer loop (claim C3) -/

/-- The `for len(toTX) > 0` loop of `transfer`, emitting each DATA
payload (`toTX[:min(len(toTX), bsize)]`) in order.  The first argument
bounds the iteration count; every iteration drops at least one byte when
`bsize ≥ 1`, so starting the fuel at the payload length makes this
exactly the Go loop (`bsize` is 512 or a negotiated value in `[8,
1450]`, never 0). -/
def chunksGo : Nat → Nat → List Nat → List (List Nat)
  | _, _, [] => []
  | 0, _, _ :: _ => []
  | fuel + 1, bsize, c :: rest =>
    (c :: rest).take bsize :: chunksGo fuel bsize ((c :: rest).drop bsize)

/-- The sequence of DATA payloads `transfer` sends for a payload. -/
def dataChunks (bsize : Nat) (payload : List Nat) : List (List Nat) :=
  chunksGo payload.length bsize payload

/-- The DATA payloads as cut with the block size `transfer` derives from
the parsed request. -/
def transferChunks (req : Rrq) (payload : List Nat) : List (List Nat) :=
  dataChunks (usedBsize req).toNat payload

/-- Claim C3 (evaluation at the failing input): with negotiated block
size 8 and a 16-byte payload (so `N mod B = 0`), the transfer sends
exactly two DATA payloads of 8 bytes each and stops — the final payload
is not strictly shorter than the block size and no zero-length trailing
DATA packet is ever sent, so the code never signals termination for
block-aligned payloads as the spec (and RFC 1350) requires. -/
theorem transfer_no_trailing_empty_data :
    transferChunks { filename := [102, 111, 111], blockSize := 8 }
        (List.replicate 16 7) =
      [List.replicate 8 7, List.replicate 8 7] ∧
    [] ∉ transferChunks { filename := [102, 111, 111], blockSize := 8 }
        (List.replicate 16 7) := by
  decide

end Blacksmith
